import Mathlib

/-!
Verification of the streamdeck-pi-manager panel state synchronization engine.

Shallow embedding of the parts of the repository the claims concern:
* `send_neo_image` — the manual chunked auxiliary-strip transfer
  (`core/controller.py`, `_send_neo_image`);
* the page/button data model and `load_config` (`core/config.py`,
  `core/button.py`);
* key dispatch (`core/controller.py`, `on_key_press`), color inheritance
  (`render_current_page` / `update_button`), `delete_page`;
* the web API button operations `swap_buttons` and `move_button`
  (`web/api.py`).

Python `dict`s are embedded as association lists with CPython semantics:
insertion of a present key replaces it in place, of a fresh key appends;
deletion filters the key out; lookup finds the first (unique) match.
Python `bytes`/ints are `List Nat` / `Int`; machine-width truncation in the
wire protocol is written with explicit `% 256`.
-/

namespace SDPi

/-! ## Python-dict style association lists -/

/-- `d.get(k)` on a Python dict modelled as an association list. -/
def dictGet {α β : Type} [DecidableEq α] : List (α × β) → α → Option β
  | [], _ => none
  | p :: m, k => if p.1 = k then some p.2 else dictGet m k

/-- `del d[k]` (also a no-op removal when the key is absent). -/
def dictErase {α β : Type} [DecidableEq α] (m : List (α × β)) (k : α) : List (α × β) :=
  m.filter (fun p => p.1 ≠ k)

/-- `d[k] = v`: replace in place when present, append when fresh. -/
def dictInsert {α β : Type} [DecidableEq α] (m : List (α × β)) (k : α) (v : β) :
    List (α × β) :=
  if m.any (fun p => p.1 = k) then
    m.map (fun p => if p.1 = k then (k, v) else p)
  else
    m ++ [(k, v)]

theorem dictGet_erase {α β : Type} [DecidableEq α] (m : List (α × β)) (k k' : α) :
    dictGet (dictErase m k) k' = if k' = k then none else dictGet m k' := by
  induction m with
  | nil => simp [dictErase, dictGet]
  | cons p m ih =>
    by_cases hp : p.1 = k
    · by_cases hk : k' = k
      · simp_all [dictErase, List.filter_cons, dictGet]
      · have hpk : ¬ p.1 = k' := by rw [hp]; exact fun h => hk h.symm
        simp_all [dictErase, List.filter_cons, dictGet]
    · by_cases hpk : p.1 = k'
      · have hk : ¬ k' = k := fun h => hp (by rw [hpk, h])
        simp_all [dictErase, List.filter_cons, dictGet]
      · by_cases hk : k' = k <;> simp_all [dictErase, List.filter_cons, dictGet]

theorem dictGet_append {α β : Type} [DecidableEq α] (m l : List (α × β)) (k : α) :
    dictGet (m ++ l) k = match dictGet m k with
      | some v => some v
      | none => dictGet l k := by
  induction m with
  | nil => simp [dictGet]
  | cons p m ih =>
    by_cases hp : p.1 = k <;> simp_all [dictGet]

theorem dictGet_eq_none_of_not_any {α β : Type} [DecidableEq α] {m : List (α × β)} {k : α}
    (h : ¬ m.any (fun p => p.1 = k)) : dictGet m k = none := by
  induction m with
  | nil => rfl
  | cons p m ih =>
    rw [List.any_cons] at h
    push_neg at h
    by_cases hp : p.1 = k
    · exact absurd (by simp [hp]) (show ¬ (decide (p.1 = k) = true) from fun hh => h (by simp [hh]))
    · have hm : ¬ m.any (fun p => p.1 = k) := by
        intro hh
        exact h (by simp [hh])
      simp [dictGet, hp, ih hm]

theorem dictGet_isSome_of_any {α β : Type} [DecidableEq α] {m : List (α × β)} {k : α}
    (h : m.any (fun p => p.1 = k)) : (dictGet m k).isSome := by
  induction m with
  | nil => simp at h
  | cons p m ih =>
    by_cases hp : p.1 = k
    · simp [dictGet, hp]
    · have h' : m.any (fun p => p.1 = k) := by
        rcases List.any_eq_true.mp h with ⟨q, hq, hqk⟩
        rcases List.mem_cons.mp hq with rfl | hq'
        · exact absurd (of_decide_eq_true hqk) hp
        · exact List.any_eq_true.mpr ⟨q, hq', hqk⟩
      simp [dictGet, hp, ih h']

theorem dictGet_mapReplace {α β : Type} [DecidableEq α] (m : List (α × β)) (k k' : α) (v : β) :
    dictGet (m.map (fun p => if p.1 = k then (k, v) else p)) k'
      = if k' = k then (dictGet m k).map (fun _ => v) else dictGet m k' := by
  induction m with
  | nil => by_cases hk : k' = k <;> simp [dictGet, hk]
  | cons p m ih =>
    by_cases hp : p.1 = k
    · by_cases hk : k' = k
      · subst hk
        simp [dictGet, hp, List.map_cons]
      · have hpk : ¬ p.1 = k' := by rw [hp]; exact fun h => hk h.symm
        have hkk : ¬ k = k' := fun h => hk h.symm
        simp [dictGet, hp, hk, hpk, hkk, List.map_cons, ih]
    · by_cases hk : k' = k
      · subst hk
        have hpk : ¬ p.1 = k' := hp
        simp [dictGet, hp, List.map_cons, ih]
      · by_cases hpk : p.1 = k' <;> simp [dictGet, hp, hk, hpk, List.map_cons, ih]

theorem dictGet_insert {α β : Type} [DecidableEq α] (m : List (α × β)) (k k' : α) (v : β) :
    dictGet (dictInsert m k v) k' = if k' = k then some v else dictGet m k' := by
  unfold dictInsert
  by_cases hmem : m.any (fun p => p.1 = k)
  · rw [if_pos hmem, dictGet_mapReplace]
    by_cases hk : k' = k
    · subst hk
      rcases hs : dictGet m k' with _ | w
      · have := dictGet_isSome_of_any hmem
        rw [hs] at this
        simp at this
      · simp [hs]
    · simp [hk]
  · rw [if_neg hmem, dictGet_append]
    by_cases hk : k' = k
    · subst hk
      rw [dictGet_eq_none_of_not_any hmem]
      simp [dictGet]
    · rcases hs : dictGet m k' with _ | w
      · have hkk : ¬ k = k' := fun h => hk h.symm
        simp [dictGet, hkk, hk]
      · simp [hk]

theorem dictGet_mem {α β : Type} [DecidableEq α] {m : List (α × β)} {k : α} {b : β}
    (h : dictGet m k = some b) : (k, b) ∈ m := by
  induction m with
  | nil => cases h
  | cons p m ih =>
    obtain ⟨a, c⟩ := p
    by_cases hp : a = k
    · subst hp
      simp [dictGet] at h
      subst h
      exact List.mem_cons_self _ _
    · simp only [dictGet] at h
      rw [if_neg hp] at h
      exact List.mem_cons_of_mem _ (ih h)

/-! ## The manual chunked auxiliary-strip transfer

`DeckController._send_neo_image` (core/controller.py lines 259–304):
1024-byte reports, 8-byte header
`[0x02, 0x0B, 0x00, is_last, len & 0xFF, (len >> 8) & 0xFF, page & 0xFF, (page >> 8) & 0xFF]`,
payload of up to `1016 = 1024 - 8` bytes zero-padded, `page_number`
incremented per frame.  The embedding returns the list of reports written to
the HID device, in order.  `x & 0xFF` is `x % 256`, `x >> 8` is `x / 256`. -/

/-- The `while bytes_remaining > 0` loop of `_send_neo_image`: reports still
to be emitted given the loop variables.  `bytes_sent` of the source is
`page_number * 1016`. -/
def send_neo_chunks (data : List Nat) (pageNumber bytesRemaining : Nat) :
    List (List Nat) :=
  if bytesRemaining = 0 then []
  else
    (([0x02, 0x0B, 0x00, if min bytesRemaining 1016 = bytesRemaining then 1 else 0,
       min bytesRemaining 1016 % 256, min bytesRemaining 1016 / 256 % 256,
       pageNumber % 256, pageNumber / 256 % 256]
      ++ (data.drop (pageNumber * 1016)).take (min bytesRemaining 1016)
      ++ List.replicate
          (1016 - ((data.drop (pageNumber * 1016)).take (min bytesRemaining 1016)).length) 0)
     : List Nat) ::
      send_neo_chunks data (pageNumber + 1) (bytesRemaining - min bytesRemaining 1016)
termination_by bytesRemaining
decreasing_by omega

/-- `_send_neo_image jpeg_data`: the full sequence of HID reports written. -/
def send_neo_image (data : List Nat) : List (List Nat) :=
  send_neo_chunks data 0 data.length

/-- One frame as the spec words it: chunk index `idx`; the not-yet-sent
suffix `rest` of the byte stream determines payload, length field and
last-chunk flag. -/
def mkFrame (idx : Nat) (rest : List Nat) : List Nat :=
  [0x02, 0x0B, 0x00, if min rest.length 1016 = rest.length then 1 else 0,
   min rest.length 1016 % 256, min rest.length 1016 / 256 % 256,
   idx % 256, idx / 256 % 256]
  ++ rest.take 1016 ++ List.replicate (1016 - min rest.length 1016) 0

/-- Spec-side chunking: peel up to 1016 bytes per frame off the front. -/
def chunkSpec (rest : List Nat) (idx : Nat) : List (List Nat) :=
  if rest = [] then []
  else mkFrame idx rest :: chunkSpec (rest.drop 1016) (idx + 1)
termination_by rest.length
decreasing_by
  simp only [List.length_drop]
  rename_i h
  have : rest.length ≠ 0 := fun hh => h (List.eq_nil_of_length_eq_zero hh)
  omega

theorem send_neo_chunks_eq_chunkSpec :
    ∀ r p (data : List Nat), p * 1016 + r = data.length →
      send_neo_chunks data p r = chunkSpec (data.drop (p * 1016)) p := by
  intro r
  induction r using Nat.strong_induction_on with
  | _ r ih =>
    intro p data h
    rcases Nat.eq_zero_or_pos r with hr | hr
    · subst hr
      rw [send_neo_chunks, chunkSpec]
      have hlen : (data.drop (p * 1016)).length = 0 := by
        simp [List.length_drop]; omega
      simp [List.eq_nil_of_length_eq_zero hlen]
    · have hr0 : r ≠ 0 := Nat.pos_iff_ne_zero.mp hr
      have hrest : (data.drop (p * 1016)).length = r := by
        simp [List.length_drop]; omega
      have hrestne : data.drop (p * 1016) ≠ [] := by
        intro hh
        rw [hh] at hrest
        simp at hrest
        omega
      rw [send_neo_chunks, chunkSpec, if_neg hr0, if_neg hrestne, List.cons.injEq]
      constructor
      · -- heads agree
        unfold mkFrame
        rw [hrest]
        have hpay : ((data.drop (p * 1016)).take (min r 1016)).length = min r 1016 := by
          rw [List.length_take, hrest]
          omega
        rw [hpay]
        have htake : (data.drop (p * 1016)).take (min r 1016)
            = (data.drop (p * 1016)).take 1016 := by
          rcases le_or_lt 1016 r with hcase | hcase
          · rw [Nat.min_eq_right hcase]
          · rw [Nat.min_eq_left (Nat.le_of_lt hcase)]
            rw [List.take_of_length_le (by omega), List.take_of_length_le (by omega)]
        rw [htake]
      · -- tails agree
        rcases le_or_lt r 1016 with hcase | hcase
        · -- last chunk: both sides empty
          have hm : min r 1016 = r := Nat.min_eq_left hcase
          rw [hm, Nat.sub_self, send_neo_chunks, if_pos rfl]
          have hdrop : (data.drop (p * 1016)).drop 1016 = [] := by
            apply List.eq_nil_of_length_eq_zero
            simp [List.length_drop]
            omega
          rw [hdrop, chunkSpec]
          simp
        · -- more chunks follow
          have hmin : min r 1016 = 1016 := Nat.min_eq_right (Nat.le_of_lt hcase)
          rw [hmin]
          have hdd : (data.drop (p * 1016)).drop 1016 = data.drop ((p + 1) * 1016) := by
            rw [List.drop_drop]
            have harith : p * 1016 + 1016 = (p + 1) * 1016 := by ring
            rw [harith]
          rw [hdd]
          exact ih (r - 1016) (by omega) (p + 1) data (by omega)

theorem send_neo_image_eq_chunkSpec (data : List Nat) :
    send_neo_image data = chunkSpec data 0 := by
  have := send_neo_chunks_eq_chunkSpec data.length 0 data (by simp)
  simpa [send_neo_image] using this

theorem mkFrame_length (idx : Nat) (rest : List Nat) : (mkFrame idx rest).length = 1024 := by
  simp [mkFrame, List.length_append, List.length_take, List.length_replicate]
  omega

theorem chunkSpec_mem_length :
    ∀ rest idx, ∀ f ∈ chunkSpec rest idx, f.length = 1024 := by
  intro rest idx
  induction rest, idx using chunkSpec.induct with
  | case1 idx =>
    intro f hf
    rw [chunkSpec, if_pos rfl] at hf
    cases hf
  | case2 rest idx h ih =>
    intro f hf
    rw [chunkSpec, if_neg h] at hf
    rcases List.mem_cons.mp hf with rfl | hf'
    · exact mkFrame_length _ _
    · exact ih f hf'

theorem chunkSpec_length :
    ∀ rest idx, (chunkSpec rest idx).length = (rest.length + 1015) / 1016 := by
  intro rest idx
  induction rest, idx using chunkSpec.induct with
  | case1 idx =>
    rw [chunkSpec, if_pos rfl]
    simp
  | case2 rest idx h ih =>
    rw [chunkSpec, if_neg h]
    have hlen : rest.length ≠ 0 := fun hh => h (List.eq_nil_of_length_eq_zero hh)
    simp only [List.length_cons, ih, List.length_drop]
    omega

theorem chunkSpec_get? :
    ∀ rest idx i, (chunkSpec rest idx).get? i =
      if rest.drop (1016 * i) = [] then none
      else some (mkFrame (idx + i) (rest.drop (1016 * i))) := by
  intro rest idx
  induction rest, idx using chunkSpec.induct with
  | case1 idx =>
    intro i
    rw [chunkSpec, if_pos rfl]
    simp
  | case2 rest idx h ih =>
    intro i
    rw [chunkSpec, if_neg h]
    cases i with
    | zero => simp [h]
    | succ j =>
      have := ih j
      simp only [List.get?_cons_succ, this, List.drop_drop]
      have harith : 1016 + 1016 * j = 1016 * (j + 1) := by ring
      have harith2 : idx + 1 + j = idx + (j + 1) := by ring
      rw [harith, harith2]

/-- The payload bytes a firmware reassembler takes from a frame: skip the
8-byte header, keep as many bytes as the header's little-endian length field
announces. -/
def framePayload (f : List Nat) : List Nat :=
  (f.drop 8).take (f.getD 4 0 + 256 * f.getD 5 0)

theorem framePayload_mkFrame (idx : Nat) (rest : List Nat) :
    framePayload (mkFrame idx rest) = rest.take 1016 := by
  unfold framePayload mkFrame
  have hdec : ∀ L : Nat, L ≤ 1016 → L % 256 + 256 * (L / 256 % 256) = L := by
    intro L hL
    omega
  have hdecode : min rest.length 1016 % 256 + 256 * (min rest.length 1016 / 256 % 256)
      = min rest.length 1016 := hdec _ (by omega)
  simp only [List.cons_append, List.nil_append, List.getD, List.get?_cons_succ,
    List.get?_cons_zero, List.drop_succ_cons, List.drop_zero, Option.getD_some]
  rw [hdecode]
  have hlen : (rest.take 1016).length = min rest.length 1016 := by
    rw [List.length_take]
    omega
  rw [List.take_append_eq_append_take, hlen, Nat.sub_self, List.take_zero,
    List.append_nil, List.take_of_length_le (le_of_eq hlen)]

theorem chunkSpec_flatten :
    ∀ rest idx, ((chunkSpec rest idx).map framePayload).flatten = rest := by
  intro rest idx
  induction rest, idx using chunkSpec.induct with
  | case1 idx =>
    rw [chunkSpec, if_pos rfl]
    simp
  | case2 rest idx h ih =>
    rw [chunkSpec, if_neg h]
    simp only [List.map_cons, List.flatten, framePayload_mkFrame, ih]
    exact List.take_append_drop _ _

/-- C9: the empty encoded image produces no frames at all: the
`while bytes_remaining > 0` loop of `_send_neo_image` is never entered. -/
theorem C9_empty_image_sends_no_frames : send_neo_image [] = [] := by
  rw [send_neo_image]
  rw [send_neo_chunks]
  simp

/-- C1: for every non-empty encoded byte stream, the manual chunked transfer
emits 1024-byte frames with header
`[0x02, 0x0B, 0x00, isLast, lenLo, lenHi, idxLo, idxHi]`; the `i`-th frame
carries the bytes `data[1016*i : 1016*i + 1016]` zero-padded to 1016,
`isLastChunk = 1` exactly when the frame's payload covers all remaining
bytes; a 1016-byte stream yields one frame with `isLast = 1`, a 1017-byte
stream yields the two described frames, and the payloads concatenate back to
the original stream. -/
theorem C1_manual_chunked_transfer (data : List Nat) (hne : data ≠ []) :
    (∀ f ∈ send_neo_image data, f.length = 1024)
    ∧ (send_neo_image data).length = (data.length + 1015) / 1016
    ∧ (∀ i, (send_neo_image data).get? i =
        if data.drop (1016 * i) = [] then none
        else some
          ([0x02, 0x0B, 0x00, if data.length - 1016 * i ≤ 1016 then 1 else 0,
            min (data.length - 1016 * i) 1016 % 256,
            min (data.length - 1016 * i) 1016 / 256 % 256,
            i % 256, i / 256 % 256]
           ++ (data.drop (1016 * i)).take 1016
           ++ List.replicate (1016 - min (data.length - 1016 * i) 1016) 0))
    ∧ ((send_neo_image data).map framePayload).flatten = data
    ∧ (data.length = 1016 →
        send_neo_image data = [[0x02, 0x0B, 0x00, 1, 248, 3, 0, 0] ++ data])
    ∧ (data.length = 1017 →
        send_neo_image data =
          [[0x02, 0x0B, 0x00, 0, 248, 3, 0, 0] ++ data.take 1016,
           [0x02, 0x0B, 0x00, 1, 1, 0, 1, 0] ++ data.drop 1016
             ++ List.replicate 1015 0]) := by
  rw [send_neo_image_eq_chunkSpec]
  refine ⟨chunkSpec_mem_length data 0, chunkSpec_length data 0, ?_, chunkSpec_flatten data 0, ?_, ?_⟩
  · intro i
    rw [chunkSpec_get? data 0 i]
    by_cases hdrop : data.drop (1016 * i) = []
    · rw [if_pos hdrop, if_pos hdrop]
    · rw [if_neg hdrop, if_neg hdrop]
      unfold mkFrame
      have hlen : (data.drop (1016 * i)).length = data.length - 1016 * i :=
        List.length_drop _ _
      rw [hlen, Nat.zero_add]
      have hiff : (min (data.length - 1016 * i) 1016 = data.length - 1016 * i)
          ↔ (data.length - 1016 * i ≤ 1016) := by omega
      rw [if_congr hiff rfl rfl]
  · intro h1016
    rw [chunkSpec, if_neg hne]
    have hdrop : data.drop 1016 = [] :=
      List.eq_nil_of_length_eq_zero (by rw [List.length_drop]; omega)
    rw [hdrop, chunkSpec, if_pos rfl]
    unfold mkFrame
    rw [h1016]
    have htake : data.take 1016 = data := List.take_of_length_le (by omega)
    rw [htake]
    norm_num
  · intro h1017
    rw [chunkSpec, if_neg hne]
    have hdrop1 : (data.drop 1016).length = 1 := by rw [List.length_drop]; omega
    have hne1 : data.drop 1016 ≠ [] := by
      intro hh; rw [hh] at hdrop1; simp at hdrop1
    rw [chunkSpec, if_neg hne1]
    have hdrop2 : (data.drop 1016).drop 1016 = [] :=
      List.eq_nil_of_length_eq_zero (by rw [List.length_drop, hdrop1])
    rw [hdrop2, chunkSpec, if_pos rfl]
    unfold mkFrame
    rw [h1017, hdrop1]
    have htake1 : (data.drop 1016).take 1016 = data.drop 1016 :=
      List.take_of_length_le (by omega)
    rw [htake1]
    norm_num

/-- Witness for C1 at the one-byte stream `[7]`. -/
theorem C1_manual_chunked_transfer_witness :
    (∀ f ∈ send_neo_image [7], f.length = 1024)
    ∧ (send_neo_image [7]).length = (([7] : List Nat).length + 1015) / 1016
    ∧ (∀ i, (send_neo_image [7]).get? i =
        if ([7] : List Nat).drop (1016 * i) = [] then none
        else some
          ([0x02, 0x0B, 0x00, if ([7] : List Nat).length - 1016 * i ≤ 1016 then 1 else 0,
            min (([7] : List Nat).length - 1016 * i) 1016 % 256,
            min (([7] : List Nat).length - 1016 * i) 1016 / 256 % 256,
            i % 256, i / 256 % 256]
           ++ (([7] : List Nat).drop (1016 * i)).take 1016
           ++ List.replicate (1016 - min (([7] : List Nat).length - 1016 * i) 1016) 0))
    ∧ ((send_neo_image [7]).map framePayload).flatten = [7]
    ∧ (([7] : List Nat).length = 1016 →
        send_neo_image [7] = [[0x02, 0x0B, 0x00, 1, 248, 3, 0, 0] ++ [7]])
    ∧ (([7] : List Nat).length = 1017 →
        send_neo_image [7] =
          [[0x02, 0x0B, 0x00, 0, 248, 3, 0, 0] ++ ([7] : List Nat).take 1016,
           [0x02, 0x0B, 0x00, 1, 1, 0, 1, 0] ++ ([7] : List Nat).drop 1016
             ++ List.replicate 1015 0]) :=
  C1_manual_chunked_transfer [7] (by simp)

/-! ## Data model (core/button.py, core/config.py)

JSON values as produced by `json.load`; object fields are the parsed dict's
entries (keys unique, insertion-ordered).  Python truthiness of a JSON value
is `jTruthy`.  Strings are restricted to ASCII for `str.isdigit`. -/

inductive JVal : Type where
  | jnull : JVal
  | jbool : Bool → JVal
  | jnum : Int → JVal
  | jstr : String → JVal
  | jarr : List JVal → JVal
  | jobj : List (String × JVal) → JVal

/-- Python truthiness (`if x:`) of a JSON value. -/
def jTruthy : JVal → Bool
  | .jnull => false
  | .jbool b => b
  | .jnum n => n != 0
  | .jstr s => s ≠ ""
  | .jarr xs => !xs.isEmpty
  | .jobj fs => !fs.isEmpty

/-- `str.isdigit` (ASCII fragment): non-empty and all decimal digits. -/
def pyIsdigit (s : String) : Bool :=
  !s.isEmpty && s.toList.all Char.isDigit

/-- `int(s)` for an all-digit string. -/
def digitsToNat (s : String) : Nat :=
  s.foldl (fun n c => n * 10 + (c.toNat - 48)) 0

/-- `int(s)` for the strings accepted by `int()` (digits, optionally with a
leading minus; other accepted spellings such as whitespace or `+` are not
needed by any persisted document the claims involve). -/
def pyInt? (s : String) : Option Int :=
  if pyIsdigit s then some (digitsToNat s)
  else if s.startsWith "-" && pyIsdigit (s.drop 1) then
    some (-(digitsToNat (s.drop 1) : Int))
  else Option.none

/-- `ButtonActionType` (core/button.py lines 9–14). -/
inductive ButtonActionType : Type where
  | plugin : ButtonActionType
  | script : ButtonActionType
  | http : ButtonActionType
  | none : ButtonActionType
deriving DecidableEq

/-- `ButtonActionType(s)` — raises `ValueError` (here: `Option.none`) on an
unknown value. -/
def buttonActionTypeOf? (s : String) : Option ButtonActionType :=
  if s = "plugin" then some .plugin
  else if s = "script" then some .script
  else if s = "http" then some .http
  else if s = "none" then some .none
  else Option.none

/-- `ButtonAction` (core/button.py lines 17–23).  `config` is kept as the raw
JSON value the document supplied. -/
structure ButtonAction : Type where
  type : ButtonActionType
  plugin_id : Option String
  config : JVal

/-- `Button` (core/button.py lines 43–54).  Python color tuples are `List Int`
(`tuple(xs)` keeps whatever length `xs` has). -/
structure Button : Type where
  key : Int
  label : String
  icon : Option String
  action : Option ButtonAction
  bg_color : List Int
  text_color : List Int
  font_size : Int
  enabled : Bool

/-- `Page` (core/config.py lines 10–17).  `bg_color`/`text_color` are `none`
for every falsy stored value (Python `None` or `[]`; the two are
indistinguishable to all readers, which only test truthiness). -/
structure Page : Type where
  id : String
  title : String
  buttons : List (Int × Button)
  bg_color : Option (List Int)
  text_color : Option (List Int)

/-- The dict `load_config` returns: `{"pages": ..., "current_page_id": ...}`. -/
structure DeckConfig : Type where
  pages : List (String × Page)
  current_page_id : String

/-- `jstr` projection. -/
def jStr? : JVal → Option String
  | .jstr s => some s
  | _ => Option.none

/-- A JSON array of integers, as `tuple(...)` of a color list. -/
def jIntList? : JVal → Option (List Int)
  | .jarr xs => xs.mapM (fun v => match v with | .jnum n => some n | _ => Option.none)
  | _ => Option.none

/-- `ButtonAction.from_dict` (core/button.py lines 33–40); `Option.none` is a
raised exception. -/
def button_action_from_dict (d : List (String × JVal)) : Option ButtonAction := do
  let ts ← jStr? ((dictGet d "type").getD (.jstr "none"))
  let t ← buttonActionTypeOf? ts
  let pid ← (match dictGet d "plugin_id" with
    | Option.none => some Option.none
    | some .jnull => some Option.none
    | some (.jstr s) => some (some s)
    | some _ => Option.none)
  pure ⟨t, pid, (dictGet d "config").getD (.jobj [])⟩

/-- `Button.from_dict` (core/button.py lines 69–84); `Option.none` is a raised
exception (`data["key"]` missing, a non-list color, a truthy non-dict
`action`, an unknown action type...). -/
def button_from_dict (v : JVal) : Option Button :=
  match v with
  | .jobj d => do
    let keyv ← dictGet d "key"
    let key ← (match keyv with | .jnum n => some n | _ => Option.none)
    let label ← (match dictGet d "label" with
      | Option.none => some ""
      | some (.jstr s) => some s
      | some _ => Option.none)
    let icon ← (match dictGet d "icon" with
      | Option.none => some Option.none
      | some .jnull => some Option.none
      | some (.jstr s) => some (some s)
      | some _ => Option.none)
    let action ← (match dictGet d "action" with
      | Option.none => some Option.none
      | some av =>
        if jTruthy av then
          (match av with
           | .jobj ad => (button_action_from_dict ad).map some
           | _ => Option.none)
        else some Option.none)
    let bg ← jIntList? ((dictGet d "bg_color").getD (.jarr [.jnum 0, .jnum 0, .jnum 0]))
    let tc ← jIntList? ((dictGet d "text_color").getD (.jarr [.jnum 255, .jnum 255, .jnum 255]))
    let fs ← (match dictGet d "font_size" with
      | Option.none => some (14 : Int)
      | some (.jnum n) => some n
      | some _ => Option.none)
    let en ← (match dictGet d "enabled" with
      | Option.none => some true
      | some (.jbool b) => some b
      | some _ => Option.none)
    pure ⟨key, label, icon, action, bg, tc, fs, en⟩
  | _ => Option.none

/-- The `bg_color`/`text_color` handling of `Page.from_dict` (core/config.py
lines 34–40): missing or falsy stays colorless, a truthy list becomes a
tuple. -/
def color_from_dict (d : List (String × JVal)) (k : String) : Option (Option (List Int)) :=
  match dictGet d k with
  | Option.none => some Option.none
  | some v => if jTruthy v then (jIntList? v).map some else some Option.none

/-- `Page.from_dict` (core/config.py lines 28–48); `Option.none` is a raised
exception (`int(k)` on a non-numeric button key, a failing
`Button.from_dict`...). -/
def page_from_dict (v : JVal) : Option Page :=
  match v with
  | .jobj d => do
    let bdict ← (match dictGet d "buttons" with
      | Option.none => some []
      | some (.jobj bd) => some bd
      | some _ => Option.none)
    let buttons ← bdict.foldlM (fun acc kv => do
        let k ← pyInt? kv.1
        let b ← button_from_dict kv.2
        pure (dictInsert acc k b)) ([] : List (Int × Button))
    let id ← (match dictGet d "id" with
      | Option.none => some "default"
      | some (.jstr s) => some s
      | some _ => Option.none)
    let title ← (match dictGet d "title" with
      | Option.none => some "Default"
      | some (.jstr s) => some s
      | some _ => Option.none)
    let bg ← color_from_dict d "bg_color"
    let tc ← color_from_dict d "text_color"
    pure ⟨id, title, buttons, bg, tc⟩
  | _ => Option.none

/-- The `default_config` of `ConfigManager.load_config` (config.py 58–61). -/
def default_config : DeckConfig :=
  ⟨[("default", ⟨"default", "Home", [], Option.none, Option.none⟩)], "default"⟩

/-- What reached `json.load`: a missing file, an unreadable/corrupt document
(any raised exception), or a parsed top-level value. -/
inductive Doc : Type where
  | missing : Doc
  | corrupt : Doc
  | top : JVal → Doc

/-- The legacy-branch loop of `load_config` (config.py 75–78):
`for k, v in data.items(): if k.isdigit(): buttons[int(k)] = Button.from_dict(v)`,
generalized over the accumulated dict. -/
def legacy_fold : List (String × JVal) → List (Int × Button) → Option (List (Int × Button))
  | [], acc => some acc
  | kv :: rest, acc =>
    if pyIsdigit kv.1 then
      match button_from_dict kv.2 with
      | some b => legacy_fold rest (dictInsert acc (digitsToNat kv.1 : Int) b)
      | Option.none => Option.none
    else legacy_fold rest acc

def legacy_buttons (entries : List (String × JVal)) : Option (List (Int × Button)) :=
  legacy_fold entries []

/-- The new-format page loop of `load_config` (config.py 83–85). -/
def parse_pages : List (String × JVal) → Option (List (String × Page)) :=
  fun pentries => pentries.foldlM (fun acc kv => do
    let p ← page_from_dict kv.2
    pure (dictInsert acc kv.1 p)) []

/-- `ConfigManager.load_config` (config.py lines 56–96). -/
def load_config (doc : Doc) : DeckConfig :=
  match doc with
  | .missing => default_config
  | .corrupt => default_config
  | .top (.jobj entries) =>
    if entries.isEmpty || entries.any (fun kv => pyIsdigit kv.1) then
      match legacy_buttons entries with
      | some buttons =>
        ⟨[("default", ⟨"default", "Home", buttons, Option.none, Option.none⟩)], "default"⟩
      | Option.none => default_config
    else
      match dictGet entries "pages" with
      | Option.none => default_config
      | some (.jobj pentries) =>
        (match parse_pages pentries with
         | Option.none => default_config
         | some [] => default_config
         | some (q :: rest) =>
            match dictGet entries "current_page_id" with
            | some (.jstr s) => ⟨q :: rest, s⟩
            | some _ => default_config
            | Option.none => ⟨q :: rest, q.1⟩)
      | some _ => default_config
  | .top _ => default_config

/-! ## C2 — `current_page_id` after `load_config` -/

/-- A well-formed new-format document whose `current_page_id` names no page. -/
def c2doc : Doc :=
  .top (.jobj [("pages", .jobj [("a", .jobj [])]), ("current_page_id", .jstr "zzz")])

/-- C2 counterexample: `load_config` keeps a stored `current_page_id` that is
not a key of the loaded `pages` mapping — no repair to the first page
happens. -/
theorem C2_counterexample :
    (load_config c2doc).current_page_id = "zzz"
    ∧ (load_config c2doc).pages.map Prod.fst = ["a"]
    ∧ (load_config c2doc).current_page_id ∉ (load_config c2doc).pages.map Prod.fst := by
  decide

/-- C2 (amended): every load path except a new-format document with a stored
`current_page_id` yields a `current_page_id` that is a key of `pages`
(missing file, corrupt document, legacy documents, and a new-format document
*without* a `current_page_id` entry, which falls back to the first page key);
but a stored `current_page_id` is returned verbatim, whether or not it
occurs among the page keys. -/
theorem C2_current_page_after_load :
    (load_config .missing = default_config)
    ∧ (load_config .corrupt = default_config)
    ∧ default_config.current_page_id ∈ default_config.pages.map Prod.fst
    ∧ (∀ entries : List (String × JVal),
        (entries.isEmpty || entries.any (fun kv => pyIsdigit kv.1)) = true →
        (load_config (.top (.jobj entries))).current_page_id
          ∈ (load_config (.top (.jobj entries))).pages.map Prod.fst)
    ∧ (∀ (entries pentries : List (String × JVal)) (q : String × Page)
        (rest : List (String × Page)),
        (entries.isEmpty || entries.any (fun kv => pyIsdigit kv.1)) = false →
        dictGet entries "pages" = some (.jobj pentries) →
        parse_pages pentries = some (q :: rest) →
        dictGet entries "current_page_id" = Option.none →
        load_config (.top (.jobj entries)) = ⟨q :: rest, q.1⟩)
    ∧ (∀ (entries pentries : List (String × JVal)) (q : String × Page)
        (rest : List (String × Page)) (s : String),
        (entries.isEmpty || entries.any (fun kv => pyIsdigit kv.1)) = false →
        dictGet entries "pages" = some (.jobj pentries) →
        parse_pages pentries = some (q :: rest) →
        dictGet entries "current_page_id" = some (.jstr s) →
        load_config (.top (.jobj entries)) = ⟨q :: rest, s⟩) := by
  refine ⟨rfl, rfl, by simp [default_config], ?_, ?_, ?_⟩
  · intro entries h
    simp only [load_config]
    rw [if_pos h]
    cases hleg : legacy_buttons entries with
    | none => simp [hleg, default_config]
    | some bs => simp [hleg]
  · intro entries pentries q rest hcond hpages hparse hcur
    simp only [load_config, hcond]
    simp only [Bool.false_eq_true, if_false, hpages, hparse, hcur]
  · intro entries pentries q rest s hcond hpages hparse hcur
    simp only [load_config, hcond]
    simp only [Bool.false_eq_true, if_false, hpages, hparse, hcur]

/-- Witness for C2's amended theorem: a legacy document, a new-format
document without `current_page_id`, and one with a stored (dangling)
`current_page_id`. -/
theorem C2_current_page_after_load_witness :
    ((load_config (.top (.jobj [("3", .jobj [("key", .jnum 3)])]))).current_page_id
      ∈ (load_config (.top (.jobj [("3", .jobj [("key", .jnum 3)])]))).pages.map Prod.fst)
    ∧ load_config (.top (.jobj [("pages", .jobj [("a", .jobj [])])]))
        = ⟨[("a", ⟨"default", "Default", [], Option.none, Option.none⟩)], "a"⟩
    ∧ load_config c2doc
        = ⟨[("a", ⟨"default", "Default", [], Option.none, Option.none⟩)], "zzz"⟩ :=
  ⟨C2_current_page_after_load.2.2.2.1 [("3", .jobj [("key", .jnum 3)])] (by decide),
   C2_current_page_after_load.2.2.2.2.1 [("pages", .jobj [("a", .jobj [])])]
     [("a", .jobj [])] ("a", ⟨"default", "Default", [], Option.none, Option.none⟩) []
     (by decide) rfl rfl rfl,
   C2_current_page_after_load.2.2.2.2.2
     [("pages", .jobj [("a", .jobj [])]), ("current_page_id", .jstr "zzz")]
     [("a", .jobj [])] ("a", ⟨"default", "Default", [], Option.none, Option.none⟩) [] "zzz"
     (by decide) rfl rfl rfl⟩

/-! ## C10 — legacy-format migration -/

/-- The value the legacy loop's dict ends up holding at integer key `j`: the
*last* all-digit entry whose integer value is `j` wins. -/
def legacy_last : List (String × JVal) → Int → Option JVal
  | [], _ => Option.none
  | kv :: rest, j =>
    match legacy_last rest j with
    | some v => some v
    | Option.none =>
      if pyIsdigit kv.1 = true ∧ (digitsToNat kv.1 : Int) = j then some kv.2
      else Option.none

theorem legacy_last_mem :
    ∀ (entries : List (String × JVal)) (j : Int) (v : JVal),
      legacy_last entries j = some v →
      ∃ k, (k, v) ∈ entries ∧ pyIsdigit k = true ∧ j = (digitsToNat k : Int) := by
  intro entries
  induction entries with
  | nil => intro j v h; cases h
  | cons kv rest ih =>
    intro j v h
    rw [legacy_last] at h
    cases hll : legacy_last rest j with
    | some w =>
      rw [hll] at h
      obtain rfl := Option.some.inj h
      obtain ⟨k, hk1, hk2, hk3⟩ := ih j w hll
      exact ⟨k, List.mem_cons_of_mem _ hk1, hk2, hk3⟩
    | none =>
      rw [hll] at h
      by_cases hc : pyIsdigit kv.1 = true ∧ (digitsToNat kv.1 : Int) = j
      · rw [if_pos hc] at h
        cases h
        exact ⟨kv.1, by simp, hc.1, hc.2.symm⟩
      · rw [if_neg hc] at h
        cases h

theorem legacy_last_of_nodup :
    ∀ entries : List (String × JVal),
      (entries.filterMap (fun kv =>
        if pyIsdigit kv.1 then some ((digitsToNat kv.1 : Int)) else Option.none)).Nodup →
      ∀ (k : String) (v : JVal), (k, v) ∈ entries → pyIsdigit k = true →
        legacy_last entries ((digitsToNat k : Int)) = some v := by
  intro entries
  induction entries with
  | nil => intro _ k v h; cases h
  | cons kv rest ih =>
    intro hnd k v hmem hdig
    rw [legacy_last]
    rcases List.mem_cons.mp hmem with heq | hmem'
    · subst heq
      rw [List.filterMap_cons] at hnd
      simp only [hdig, if_true] at hnd
      have hnotmem := (List.nodup_cons.mp hnd).1
      cases hll : legacy_last rest ((digitsToNat k : Int)) with
      | some w =>
        obtain ⟨k', hk'm, hk'd, hk'j⟩ := legacy_last_mem rest _ w hll
        exact absurd
          (List.mem_filterMap.mpr ⟨(k', w), hk'm, by simp [hk'd, ← hk'j]⟩) hnotmem
      | none =>
        simp only [hll]
        simp [hdig]
    · have hnd' : (rest.filterMap (fun kv =>
          if pyIsdigit kv.1 then some ((digitsToNat kv.1 : Int)) else Option.none)).Nodup := by
        rw [List.filterMap_cons] at hnd
        cases hd0 : pyIsdigit kv.1 with
        | true => rw [hd0] at hnd; simp only [if_true] at hnd; exact (List.nodup_cons.mp hnd).2
        | false => rw [hd0] at hnd; simpa using hnd
      rw [ih hnd' k v hmem' hdig]

theorem legacy_fold_spec :
    ∀ (entries : List (String × JVal)) (acc : List (Int × Button)),
      (∀ kv ∈ entries, pyIsdigit kv.1 = true → (button_from_dict kv.2).isSome) →
      ∃ bs, legacy_fold entries acc = some bs ∧
        ∀ j : Int, dictGet bs j =
          (match legacy_last entries j with
           | some v => button_from_dict v
           | Option.none => dictGet acc j) := by
  intro entries
  induction entries with
  | nil =>
    intro acc _
    exact ⟨acc, rfl, fun j => by rw [legacy_last]⟩
  | cons kv rest ih =>
    intro acc h
    by_cases hd : pyIsdigit kv.1 = true
    · obtain ⟨b, hb⟩ := Option.isSome_iff_exists.mp (h kv (by simp) hd)
      obtain ⟨bs, hbs, hget⟩ :=
        ih (dictInsert acc (digitsToNat kv.1 : Int) b)
          (fun q hq hqd => h q (List.mem_cons_of_mem _ hq) hqd)
      refine ⟨bs, ?_, ?_⟩
      · rw [legacy_fold, if_pos hd, hb]
        exact hbs
      · intro j
        rw [hget j, legacy_last]
        cases hll : legacy_last rest j with
        | some v => simp [hll]
        | none =>
          simp only [hll]
          rw [dictGet_insert]
          by_cases hj : (digitsToNat kv.1 : Int) = j
          · simp [hj, hd, hb]
          · have hj' : ¬ (j = (digitsToNat kv.1 : Int)) := fun hh => hj hh.symm
            simp [hj, hj', hd]
    · obtain ⟨bs, hbs, hget⟩ := ih acc (fun q hq hqd => h q (List.mem_cons_of_mem _ hq) hqd)
      refine ⟨bs, ?_, ?_⟩
      · rw [legacy_fold, if_neg hd]
        exact hbs
      · intro j
        rw [hget j, legacy_last]
        cases hll : legacy_last rest j with
        | some v => simp [hll]
        | none =>
          simp only [hll]
          simp [hd]

/-- C10: a document classified as legacy (empty, or some all-digit top-level
key) migrates into a single `"default"`/`"Home"` page holding exactly the
all-digit-keyed entries (keyed by their integer value); entries with
non-digit keys are silently dropped.  Hypotheses: every digit-keyed value
parses as a button (otherwise the whole load degrades to the default
config), and no two digit keys denote the same integer (a Python dict cannot
hold them apart anyway). -/
theorem C10_legacy_migration (entries : List (String × JVal))
    (hleg : (entries.isEmpty || entries.any (fun kv => pyIsdigit kv.1)) = true)
    (hall : ∀ kv ∈ entries, pyIsdigit kv.1 = true → (button_from_dict kv.2).isSome)
    (hnd : (entries.filterMap (fun kv =>
      if pyIsdigit kv.1 then some ((digitsToNat kv.1 : Int)) else Option.none)).Nodup) :
    ∃ buttons, legacy_buttons entries = some buttons
      ∧ load_config (.top (.jobj entries))
          = ⟨[("default", ⟨"default", "Home", buttons, Option.none, Option.none⟩)], "default"⟩
      ∧ (∀ (k : String) (v : JVal), (k, v) ∈ entries → pyIsdigit k = true →
          dictGet buttons ((digitsToNat k : Int)) = button_from_dict v)
      ∧ (∀ j : Int, (dictGet buttons j).isSome →
          ∃ k v, (k, v) ∈ entries ∧ pyIsdigit k = true ∧ j = (digitsToNat k : Int)) := by
  obtain ⟨bs, hbs, hget⟩ := legacy_fold_spec entries [] hall
  have hbs' : legacy_buttons entries = some bs := hbs
  refine ⟨bs, hbs', ?_, ?_, ?_⟩
  · simp only [load_config]
    rw [if_pos hleg, hbs']
  · intro k v hm hd
    rw [hget, legacy_last_of_nodup entries hnd k v hm hd]
  · intro j hj
    rw [hget j] at hj
    cases hll : legacy_last entries j with
    | some v =>
      obtain ⟨k, hk, hkd, hkj⟩ := legacy_last_mem entries j v hll
      exact ⟨k, v, hk, hkd, hkj⟩
    | none =>
      rw [hll] at hj
      simp [dictGet] at hj

/-- The mixed legacy document used as C10's witness. -/
def c10entries : List (String × JVal) :=
  [("0", .jobj [("key", .jnum 0)]), ("name", .jstr "x")]

/-- Witness for C10 on a mixed document: the digit key `"0"` survives, the
non-digit key `"name"` is dropped. -/
theorem C10_legacy_migration_witness :
    ∃ buttons,
      legacy_buttons c10entries = some buttons
      ∧ load_config (.top (.jobj c10entries))
          = ⟨[("default", ⟨"default", "Home", buttons, Option.none, Option.none⟩)], "default"⟩
      ∧ (∀ (k : String) (v : JVal),
          (k, v) ∈ c10entries →
          pyIsdigit k = true →
          dictGet buttons ((digitsToNat k : Int)) = button_from_dict v)
      ∧ (∀ j : Int, (dictGet buttons j).isSome →
          ∃ k v, (k, v) ∈ c10entries
            ∧ pyIsdigit k = true ∧ j = (digitsToNat k : Int)) :=
  C10_legacy_migration c10entries (by decide) (by decide) (by decide)

/-! ## Key dispatch (core/controller.py, `on_key_press` lines 306–347) -/

/-- `get_current_page` (controller.py lines 113–116). -/
def get_current_page (cfg : DeckConfig) : Option Page :=
  dictGet cfg.pages cfg.current_page_id

/-- The arguments of a `plugin_manager.execute_plugin` call
(controller.py lines 338–347): plugin id, key, the action's config, and the
render context built from the button's colors and font size. -/
structure ExecCall : Type where
  plugin_id : String
  key : Int
  config : JVal
  bg_color : List Int
  text_color : List Int
  font_size : Int

/-- What one `on_key_press` invocation does. -/
inductive KeyPressResult : Type where
  | prevPage : KeyPressResult
  | nextPage : KeyPressResult
  | nothing : KeyPressResult
  | executed : ExecCall → KeyPressResult

/-- `on_key_press` (controller.py lines 306–347): keys 8 and 9 are hardcoded
paging keys; otherwise the current page's button is looked up and the plugin
executed when `button and button.action and button.action.plugin_id` is
truthy (an empty-string plugin id is falsy). -/
def on_key_press (cfg : DeckConfig) (key : Int) : KeyPressResult :=
  if key = 8 then .prevPage
  else if key = 9 then .nextPage
  else
    match get_current_page cfg with
    | Option.none => .nothing
    | some page =>
      match dictGet page.buttons key with
      | Option.none => .nothing
      | some b =>
        match b.action with
        | Option.none => .nothing
        | some a =>
          match a.plugin_id with
          | some pid =>
            if pid ≠ "" then
              .executed ⟨pid, key, a.config, b.bg_color, b.text_color, b.font_size⟩
            else .nothing
          | Option.none => .nothing

/-- A *disabled* button carrying a plugin action. -/
def c3button : Button :=
  ⟨0, "", Option.none, some ⟨.plugin, some "p", .jobj []⟩, [0, 0, 0], [255, 255, 255], 14, false⟩

def c3page : Page := ⟨"home", "Home", [(0, c3button)], Option.none, Option.none⟩

def c3cfg : DeckConfig := ⟨[("home", c3page)], "home"⟩

/-- C3 counterexample: a press on slot 0 executes the plugin although the
button is disabled — `on_key_press` never consults `enabled` (nor the action
kind), contradicting the claimed iff. -/
theorem C3_counterexample :
    c3button.enabled = false
    ∧ dictGet c3page.buttons 0 = some c3button
    ∧ on_key_press c3cfg 0
        = .executed ⟨"p", 0, .jobj [], [0, 0, 0], [255, 255, 255], 14⟩ :=
  ⟨rfl, rfl, rfl⟩

/-- C3 (amended): on a non-paging slot (key ∉ {8, 9}), `on_key_press`
executes the button's plugin iff the current page has a button at the slot
whose action exists and carries a non-empty `plugin_id` — the `enabled` flag
and the action kind are *not* consulted; an unconfigured slot, or no current
page, yields no invocation and no error; the render context carries the
button's colors and font size. -/
theorem C3_key_dispatch (cfg : DeckConfig) (key : Int) (h8 : key ≠ 8) (h9 : key ≠ 9) :
    (get_current_page cfg = Option.none → on_key_press cfg key = .nothing)
    ∧ (∀ page, get_current_page cfg = some page →
        (dictGet page.buttons key = Option.none → on_key_press cfg key = .nothing)
        ∧ (∀ b, dictGet page.buttons key = some b →
            ((∃ call, on_key_press cfg key = .executed call) ↔
              (∃ a pid, b.action = some a ∧ a.plugin_id = some pid ∧ pid ≠ ""))
            ∧ (∀ a pid, b.action = some a → a.plugin_id = some pid → pid ≠ "" →
                on_key_press cfg key =
                  .executed ⟨pid, key, a.config, b.bg_color, b.text_color, b.font_size⟩))) := by
  constructor
  · intro hp
    simp [on_key_press, h8, h9, hp]
  · intro page hp
    constructor
    · intro hb
      simp [on_key_press, h8, h9, hp, hb]
    · intro b hb
      constructor
      · constructor
        · rintro ⟨call, hcall⟩
          simp only [on_key_press, if_neg h8, if_neg h9, hp, hb] at hcall
          rcases ha : b.action with _ | a
          · simp only [ha] at hcall; cases hcall
          · simp only [ha] at hcall
            rcases hpid : a.plugin_id with _ | pid
            · simp only [hpid] at hcall; cases hcall
            · simp only [hpid] at hcall
              by_cases hne : pid ≠ ""
              · exact ⟨a, pid, rfl, hpid, hne⟩
              · rw [if_neg hne] at hcall; cases hcall
        · rintro ⟨a, pid, ha, hpid, hne⟩
          refine ⟨⟨pid, key, a.config, b.bg_color, b.text_color, b.font_size⟩, ?_⟩
          simp [on_key_press, h8, h9, hp, hb, ha, hpid, hne]
      · intro a pid ha hpid hne
        simp [on_key_press, h8, h9, hp, hb, ha, hpid, hne]

/-- An *enabled* button with a plugin action, for the C3 witness. -/
def c3wbutton : Button :=
  ⟨2, "", Option.none, some ⟨.plugin, some "w", .jobj []⟩, [1, 2, 3], [4, 5, 6], 11, true⟩

def c3wcfg : DeckConfig :=
  ⟨[("home", ⟨"home", "Home", [(2, c3wbutton)], Option.none, Option.none⟩)], "home"⟩

/-- Witness for C3's amended theorem at slot 2 of a concrete config. -/
theorem C3_key_dispatch_witness :
    on_key_press c3wcfg 2 = .executed ⟨"w", 2, .jobj [], [1, 2, 3], [4, 5, 6], 11⟩ :=
  (((C3_key_dispatch c3wcfg 2 (by decide) (by decide)).2
      ⟨"home", "Home", [(2, c3wbutton)], Option.none, Option.none⟩ rfl).2
      c3wbutton rfl).2 ⟨.plugin, some "w", .jobj []⟩ "w" rfl rfl (by decide)

/-- An enabled plugin button parked at slot 15 — on a 15-key device this is
the slot the claim calls `keyCount`. -/
def c4button : Button :=
  ⟨15, "", Option.none, some ⟨.plugin, some "q", .jobj []⟩, [0, 0, 0], [255, 255, 255], 14, true⟩

def c4cfg : DeckConfig :=
  ⟨[("home", ⟨"home", "Home", [(15, c4button)], Option.none, Option.none⟩)], "home"⟩

/-- C4 counterexample: with `keyCount = 15` (e.g. the original 15-key deck),
a press on slot `keyCount` does *not* trigger `prev_page` — it goes straight
to button-action dispatch and executes the configured plugin, and slot
`keyCount + 1` pages nothing either: the paging slots are hardcoded at 8
and 9 irrespective of the device's key count. -/
theorem C4_counterexample :
    on_key_press c4cfg 15
        = .executed ⟨"q", 15, .jobj [], [0, 0, 0], [255, 255, 255], 14⟩
    ∧ on_key_press c4cfg 15 ≠ .prevPage
    ∧ on_key_press c4cfg (15 + 1) ≠ .nextPage := by
  refine ⟨rfl, ?_, ?_⟩
  · intro h
    rw [show on_key_press c4cfg 15
        = .executed ⟨"q", 15, .jobj [], [0, 0, 0], [255, 255, 255], 14⟩ from rfl] at h
    cases h
  · intro h
    rw [show on_key_press c4cfg (15 + 1) = .nothing from rfl] at h
    cases h

/-- C4 (amended): the reserved paging slots are the fixed indices 8 and 9
(which coincide with `keyCount` and `keyCount + 1` only on an 8-key device
such as the Neo); a press there always triggers `prev_page`/`next_page` and
never reaches button lookup or plugin execution. -/
theorem C4_paging_slots (cfg : DeckConfig) :
    on_key_press cfg 8 = .prevPage ∧ on_key_press cfg 9 = .nextPage := by
  constructor
  · simp [on_key_press]
  · simp [on_key_press]

/-! ## Color inheritance (controller.py `render_current_page` lines 132–150
and `update_button` lines 420–439, identical logic) -/

/-- `bg_color = button.bg_color; if bg_color == (0,0,0) and page.bg_color:
bg_color = page.bg_color`. -/
def effective_bg_color (page : Page) (b : Button) : List Int :=
  match page.bg_color with
  | some c => if b.bg_color = [0, 0, 0] then c else b.bg_color
  | Option.none => b.bg_color

/-- `text_color = button.text_color; if text_color == (255,255,255) and
page.text_color: text_color = page.text_color`. -/
def effective_text_color (page : Page) (b : Button) : List Int :=
  match page.text_color with
  | some c => if b.text_color = [255, 255, 255] then c else b.text_color
  | Option.none => b.text_color

/-- The `set_button_text` call `render_current_page` issues for one button
(controller.py lines 132–150): only enabled buttons are drawn, with the
inherited colors. -/
structure RenderCall : Type where
  key : Int
  label : String
  icon : Option String
  font_size : Int
  bg_color : List Int
  text_color : List Int

def render_button_call (page : Page) (key : Int) (b : Button) : Option RenderCall :=
  if b.enabled then
    some ⟨key, b.label, b.icon, b.font_size, effective_bg_color page b,
          effective_text_color page b⟩
  else Option.none

/-- C7: the rendered background color is the page's exactly when the button's
background equals the default `(0,0,0)` and the page defines a (non-null)
background; otherwise the button's own; independently the same for the text
color against `(255,255,255)`; in particular `(5,5,5)` always wins over page
colors, and the colors a render call carries are exactly these effective
colors. -/
theorem C7_color_inheritance (page : Page) (b : Button) :
    (∀ c, b.bg_color = [0, 0, 0] → page.bg_color = some c →
      effective_bg_color page b = c)
    ∧ (b.bg_color ≠ [0, 0, 0] → effective_bg_color page b = b.bg_color)
    ∧ (page.bg_color = Option.none → effective_bg_color page b = b.bg_color)
    ∧ (∀ c, b.text_color = [255, 255, 255] → page.text_color = some c →
        effective_text_color page b = c)
    ∧ (b.text_color ≠ [255, 255, 255] → effective_text_color page b = b.text_color)
    ∧ (page.text_color = Option.none → effective_text_color page b = b.text_color)
    ∧ (b.bg_color = [5, 5, 5] → effective_bg_color page b = [5, 5, 5])
    ∧ (∀ (key : Int) (rc : RenderCall), render_button_call page key b = some rc →
        rc.bg_color = effective_bg_color page b
        ∧ rc.text_color = effective_text_color page b) := by
  refine ⟨?_, ?_, ?_, ?_, ?_, ?_, ?_, ?_⟩
  · intro c hb hp
    simp [effective_bg_color, hp, hb]
  · intro hb
    unfold effective_bg_color
    cases hp : page.bg_color with
    | none => rfl
    | some c => simp [hb]
  · intro hp
    simp [effective_bg_color, hp]
  · intro c hb hp
    simp [effective_text_color, hp, hb]
  · intro hb
    unfold effective_text_color
    cases hp : page.text_color with
    | none => rfl
    | some c => simp [hb]
  · intro hp
    simp [effective_text_color, hp]
  · intro hb
    unfold effective_bg_color
    cases hp : page.bg_color with
    | none => exact hb
    | some c => simp [hb]
  · intro key rc hrc
    unfold render_button_call at hrc
    by_cases he : b.enabled
    · rw [if_pos he] at hrc
      cases hrc
      exact ⟨rfl, rfl⟩
    · rw [if_neg he] at hrc
      cases hrc

/-- Witness for C7: on a page with background `(10,20,30)`, a default-colored
button inherits `(10,20,30)` while a `(5,5,5)` button keeps `(5,5,5)`. -/
theorem C7_color_inheritance_witness :
    effective_bg_color ⟨"p", "P", [], some [10, 20, 30], Option.none⟩
        ⟨0, "", Option.none, Option.none, [0, 0, 0], [255, 255, 255], 14, true⟩
      = [10, 20, 30]
    ∧ effective_bg_color ⟨"p", "P", [], some [10, 20, 30], Option.none⟩
        ⟨0, "", Option.none, Option.none, [5, 5, 5], [255, 255, 255], 14, true⟩
      = [5, 5, 5] :=
  ⟨(C7_color_inheritance _ _).1 [10, 20, 30] rfl rfl,
   (C7_color_inheritance _ _).2.2.2.2.2.2.1 rfl⟩

/-! ## `delete_page` (controller.py lines 392–401) -/

/-- `delete_page`: refuses unless the page exists and more than one page
remains; when the deleted page was current, the first remaining page becomes
current (`list(pages.keys())[0]`; the `[]` match arm models the unreachable
`IndexError` — with unique keys the remaining dict is non-empty). -/
def delete_page (cfg : DeckConfig) (page_id : String) : DeckConfig :=
  if (dictGet cfg.pages page_id).isSome ∧ 1 < cfg.pages.length then
    let pages' := dictErase cfg.pages page_id
    if cfg.current_page_id = page_id then
      { pages := pages',
        current_page_id := match pages' with
          | [] => cfg.current_page_id
          | q :: _ => q.1 }
    else
      { pages := pages', current_page_id := cfg.current_page_id }
  else cfg

theorem dictErase_eq_self_of_forall {α β : Type} [DecidableEq α]
    {m : List (α × β)} {k : α} (h : ∀ p ∈ m, p.1 ≠ k) : dictErase m k = m :=
  List.filter_eq_self.mpr (fun p hp => by simpa using h p hp)

theorem dictErase_length_of_nodup {α β : Type} [DecidableEq α]
    (m : List (α × β)) (k : α) (hnd : (m.map Prod.fst).Nodup)
    (h : (dictGet m k).isSome) : (dictErase m k).length + 1 = m.length := by
  induction m with
  | nil => simp [dictGet] at h
  | cons p m ih =>
    rw [List.map_cons, List.nodup_cons] at hnd
    by_cases hp : p.1 = k
    · have hrest : ∀ q ∈ m, q.1 ≠ k := by
        intro q hq hqk
        apply hnd.1
        have hq' : q.1 ∈ m.map Prod.fst := List.mem_map_of_mem Prod.fst hq
        rw [hqk, ← hp] at hq'
        exact hq'
      have h1 : dictErase (p :: m) k = dictErase m k := by
        rw [dictErase, dictErase, List.filter_cons]
        rw [show (decide (p.1 ≠ k)) = false by simp [hp]]
        simp
      rw [h1, dictErase_eq_self_of_forall hrest]
      simp
    · have h1 : dictErase (p :: m) k = p :: dictErase m k := by
        rw [dictErase, dictErase, List.filter_cons]
        rw [show (decide (p.1 ≠ k)) = true by simp [hp]]
        simp
      have h' : (dictGet m k).isSome := by
        rw [dictGet, if_neg hp] at h
        exact h
      rw [h1]
      simp only [List.length_cons]
      rw [ih hnd.2 h']

/-- C8: `delete_page` on a single-page config is the identity; it never
empties the page set; when the page exists and at least one other remains it
removes exactly that page, reassigning `current_page_id` to the first
remaining page iff the deleted page was current; deleting an unknown page is
a no-op. -/
theorem C8_delete_page (cfg : DeckConfig) (pid : String)
    (hnd : (cfg.pages.map Prod.fst).Nodup) :
    (cfg.pages.length = 1 → delete_page cfg pid = cfg)
    ∧ (cfg.pages ≠ [] → (delete_page cfg pid).pages ≠ [])
    ∧ (∀ p, dictGet cfg.pages pid = some p → 1 < cfg.pages.length →
        (delete_page cfg pid).pages = dictErase cfg.pages pid
        ∧ (cfg.current_page_id = pid →
            ∃ q rest, dictErase cfg.pages pid = q :: rest
              ∧ (delete_page cfg pid).current_page_id = q.1)
        ∧ (cfg.current_page_id ≠ pid →
            (delete_page cfg pid).current_page_id = cfg.current_page_id))
    ∧ (dictGet cfg.pages pid = Option.none → delete_page cfg pid = cfg) := by
  refine ⟨?_, ?_, ?_, ?_⟩
  · intro hlen
    unfold delete_page
    rw [if_neg (fun hc => absurd hc.2 (by omega))]
  · intro hne
    unfold delete_page
    by_cases hc : (dictGet cfg.pages pid).isSome ∧ 1 < cfg.pages.length
    · rw [if_pos hc]
      have hlen := dictErase_length_of_nodup cfg.pages pid hnd hc.1
      have : (dictErase cfg.pages pid).length ≠ 0 := by omega
      have hne' : dictErase cfg.pages pid ≠ [] :=
        fun hh => this (by rw [hh]; rfl)
      by_cases hcur : cfg.current_page_id = pid
      · rw [if_pos hcur]
        exact hne'
      · rw [if_neg hcur]
        exact hne'
    · rw [if_neg hc]
      exact hne
  · intro p hp hlen
    have hc : (dictGet cfg.pages pid).isSome ∧ 1 < cfg.pages.length :=
      ⟨by rw [hp]; rfl, hlen⟩
    have hlen' := dictErase_length_of_nodup cfg.pages pid hnd hc.1
    refine ⟨?_, ?_, ?_⟩
    · unfold delete_page
      rw [if_pos hc]
      by_cases hcur : cfg.current_page_id = pid
      · rw [if_pos hcur]
      · rw [if_neg hcur]
    · intro hcur
      rcases he : dictErase cfg.pages pid with _ | ⟨q, rest⟩
      · rw [he] at hlen'
        simp at hlen'
        omega
      · refine ⟨q, rest, rfl, ?_⟩
        unfold delete_page
        rw [if_pos hc, if_pos hcur]
        simp only [he]
    · intro hcur
      unfold delete_page
      rw [if_pos hc, if_neg hcur]
  · intro hp
    unfold delete_page
    rw [if_neg (fun hc => by rw [hp] at hc; exact absurd hc.1 (by simp))]

/-- Witness for C8 on a two-page config whose current page is deleted, and a
one-page config where deletion is refused. -/
theorem C8_delete_page_witness :
    ((⟨[("a", ⟨"a", "A", [], Option.none, Option.none⟩),
        ("b", ⟨"b", "B", [], Option.none, Option.none⟩)], "a"⟩ : DeckConfig).pages.length = 1 →
      delete_page ⟨[("a", ⟨"a", "A", [], Option.none, Option.none⟩),
        ("b", ⟨"b", "B", [], Option.none, Option.none⟩)], "a"⟩ "a"
        = ⟨[("a", ⟨"a", "A", [], Option.none, Option.none⟩),
            ("b", ⟨"b", "B", [], Option.none, Option.none⟩)], "a"⟩)
    ∧ ((⟨[("a", ⟨"a", "A", [], Option.none, Option.none⟩),
        ("b", ⟨"b", "B", [], Option.none, Option.none⟩)], "a"⟩ : DeckConfig).pages ≠ [] →
      (delete_page ⟨[("a", ⟨"a", "A", [], Option.none, Option.none⟩),
        ("b", ⟨"b", "B", [], Option.none, Option.none⟩)], "a"⟩ "a").pages ≠ [])
    ∧ (∀ p, dictGet (⟨[("a", ⟨"a", "A", [], Option.none, Option.none⟩),
        ("b", ⟨"b", "B", [], Option.none, Option.none⟩)], "a"⟩ : DeckConfig).pages "a" = some p →
        1 < (⟨[("a", ⟨"a", "A", [], Option.none, Option.none⟩),
        ("b", ⟨"b", "B", [], Option.none, Option.none⟩)], "a"⟩ : DeckConfig).pages.length →
        (delete_page ⟨[("a", ⟨"a", "A", [], Option.none, Option.none⟩),
        ("b", ⟨"b", "B", [], Option.none, Option.none⟩)], "a"⟩ "a").pages
          = dictErase (⟨[("a", ⟨"a", "A", [], Option.none, Option.none⟩),
        ("b", ⟨"b", "B", [], Option.none, Option.none⟩)], "a"⟩ : DeckConfig).pages "a"
        ∧ ((⟨[("a", ⟨"a", "A", [], Option.none, Option.none⟩),
        ("b", ⟨"b", "B", [], Option.none, Option.none⟩)], "a"⟩ : DeckConfig).current_page_id = "a" →
            ∃ q rest, dictErase (⟨[("a", ⟨"a", "A", [], Option.none, Option.none⟩),
        ("b", ⟨"b", "B", [], Option.none, Option.none⟩)], "a"⟩ : DeckConfig).pages "a" = q :: rest
              ∧ (delete_page ⟨[("a", ⟨"a", "A", [], Option.none, Option.none⟩),
        ("b", ⟨"b", "B", [], Option.none, Option.none⟩)], "a"⟩ "a").current_page_id = q.1)
        ∧ ((⟨[("a", ⟨"a", "A", [], Option.none, Option.none⟩),
        ("b", ⟨"b", "B", [], Option.none, Option.none⟩)], "a"⟩ : DeckConfig).current_page_id ≠ "a" →
            (delete_page ⟨[("a", ⟨"a", "A", [], Option.none, Option.none⟩),
        ("b", ⟨"b", "B", [], Option.none, Option.none⟩)], "a"⟩ "a").current_page_id
              = (⟨[("a", ⟨"a", "A", [], Option.none, Option.none⟩),
        ("b", ⟨"b", "B", [], Option.none, Option.none⟩)], "a"⟩ : DeckConfig).current_page_id))
    ∧ (dictGet (⟨[("a", ⟨"a", "A", [], Option.none, Option.none⟩),
        ("b", ⟨"b", "B", [], Option.none, Option.none⟩)], "a"⟩ : DeckConfig).pages "a" = Option.none →
        delete_page ⟨[("a", ⟨"a", "A", [], Option.none, Option.none⟩),
        ("b", ⟨"b", "B", [], Option.none, Option.none⟩)], "a"⟩ "a"
          = ⟨[("a", ⟨"a", "A", [], Option.none, Option.none⟩),
              ("b", ⟨"b", "B", [], Option.none, Option.none⟩)], "a"⟩) :=
  C8_delete_page
    ⟨[("a", ⟨"a", "A", [], Option.none, Option.none⟩),
      ("b", ⟨"b", "B", [], Option.none, Option.none⟩)], "a"⟩ "a" (by decide)

/-! ## `swap_buttons` (web/api.py lines 300–338) -/

/-- `swap_buttons` on one page's button dict: fetch both entries, bail out if
neither exists, delete both keys, then re-insert each present button at the
other key with its `key` field rewritten. -/
def swap_buttons (buttons : List (Int × Button)) (key1 key2 : Int) :
    List (Int × Button) :=
  let b1 := dictGet buttons key1
  let b2 := dictGet buttons key2
  if b1.isNone ∧ b2.isNone then buttons
  else
    let m1 := dictErase (dictErase buttons key1) key2
    let m2 := match b1 with
      | some b => dictInsert m1 key2 { b with key := key2 }
      | Option.none => m1
    match b2 with
    | some b => dictInsert m2 key1 { b with key := key1 }
    | Option.none => m2

theorem swap_buttons_get (m : List (Int × Button)) (k1 k2 k : Int) :
    dictGet (swap_buttons m k1 k2) k =
      if (dictGet m k1).isNone ∧ (dictGet m k2).isNone then dictGet m k
      else if k = k1 then (dictGet m k2).map (fun b => { b with key := k1 })
      else if k = k2 then (dictGet m k1).map (fun b => { b with key := k2 })
      else dictGet m k := by
  unfold swap_buttons
  rcases hb1 : dictGet m k1 with _ | b1 <;> rcases hb2 : dictGet m k2 with _ | b2
  · simp [hb1, hb2]
  · have hk12 : ¬ k1 = k2 := fun h => by rw [h, hb2] at hb1; cases hb1
    by_cases h1 : k = k1 <;> by_cases h2 : k = k2 <;>
      simp_all [dictGet_insert, dictGet_erase]
  · have hk12 : ¬ k1 = k2 := fun h => by rw [h, hb2] at hb1; cases hb1
    by_cases h1 : k = k1 <;> by_cases h2 : k = k2 <;>
      simp_all [dictGet_insert, dictGet_erase]
  · by_cases hk12 : k1 = k2
    · subst hk12
      by_cases h1 : k = k1 <;>
        simp_all [dictGet_insert, dictGet_erase]
    · by_cases h1 : k = k1 <;> by_cases h2 : k = k2 <;>
        simp_all [dictGet_insert, dictGet_erase]

/-- Every stored button's `key` field names its own slot (true of every map
produced by the config loader's slot-keyed construction and by the API's
`update_button`, which builds the button from the slot). -/
def slot_consistent (m : List (Int × Button)) : Prop :=
  ∀ kv ∈ m, kv.2.key = kv.1

/-- C5 counterexample: on a map whose stored button carries a `key` field
(5) different from its slot (0), two successive swaps do *not* restore the
original entry — the stored `key` field has been rewritten to the slot. -/
theorem C5_counterexample :
    (dictGet [((0 : Int),
        (⟨5, "", Option.none, Option.none, [0, 0, 0], [255, 255, 255], 14, true⟩ : Button))] 0).map
        Button.key = some 5
    ∧ (dictGet (swap_buttons (swap_buttons
        [((0 : Int),
          (⟨5, "", Option.none, Option.none, [0, 0, 0], [255, 255, 255], 14, true⟩ : Button))]
        0 1) 0 1) 0).map Button.key = some 0 := by
  constructor
  · rfl
  · rfl

/-- C5 (amended): on a slot-consistent page (each stored button's `key` field
equals its slot — the situation every code path of the repository produces),
`swap_buttons p a b` is an involution: applying it twice restores the button
map pointwise, stored `key` fields included. -/
theorem C5_swap_involution (m : List (Int × Button)) (k1 k2 : Int)
    (hcons : slot_consistent m) :
    ∀ k, dictGet (swap_buttons (swap_buttons m k1 k2) k1 k2) k = dictGet m k := by
  intro k
  by_cases hbn : (dictGet m k1).isNone ∧ (dictGet m k2).isNone
  · have hswap : swap_buttons m k1 k2 = m := by
      unfold swap_buttons
      rw [if_pos hbn]
    rw [hswap, hswap]
  · have h1 := swap_buttons_get m k1 k2 k1
    rw [if_neg hbn, if_pos rfl] at h1
    by_cases hk12 : k1 = k2
    · subst hk12
      rcases hb : dictGet m k1 with _ | b
      · exact absurd ⟨by rw [hb]; rfl, by rw [hb]; rfl⟩ hbn
      · have hbkey : b.key = k1 := hcons (k1, b) (dictGet_mem hb)
        rw [hb] at h1
        have houter : ¬ ((dictGet (swap_buttons m k1 k1) k1).isNone
            ∧ (dictGet (swap_buttons m k1 k1) k1).isNone) := by
          rw [h1]
          intro hc
          cases hc.1
        rw [swap_buttons_get, if_neg houter]
        by_cases hk : k = k1
        · rw [if_pos hk, h1, hk, hb]
          show some { b with key := k1 } = some b
          rw [← hbkey]
        · rw [if_neg hk, if_neg hk]
          have hkk := swap_buttons_get m k1 k1 k
          rw [if_neg hbn, if_neg hk, if_neg hk] at hkk
          exact hkk
    · have h2 := swap_buttons_get m k1 k2 k2
      rw [if_neg hbn, if_neg (fun h => hk12 h.symm), if_pos rfl] at h2
      have houter : ¬ ((dictGet (swap_buttons m k1 k2) k1).isNone
          ∧ (dictGet (swap_buttons m k1 k2) k2).isNone) := by
        intro hc
        apply hbn
        constructor
        · have := hc.2
          rw [h2] at this
          rcases hg : dictGet m k1 with _ | b
          · rfl
          · rw [hg] at this; cases this
        · have := hc.1
          rw [h1] at this
          rcases hg : dictGet m k2 with _ | b
          · rfl
          · rw [hg] at this; cases this
      rw [swap_buttons_get, if_neg houter]
      by_cases hk : k = k1
      · rw [if_pos hk, h2, hk]
        rcases hg : dictGet m k1 with _ | b
        · rfl
        · have hbkey : b.key = k1 := hcons (k1, b) (dictGet_mem hg)
          show some { b with key := k1 } = some b
          rw [← hbkey]
      · by_cases hk' : k = k2
        · rw [if_neg hk, if_pos hk', h1, hk']
          rcases hg : dictGet m k2 with _ | b
          · rfl
          · have hbkey : b.key = k2 := hcons (k2, b) (dictGet_mem hg)
            show some { b with key := k2 } = some b
            rw [← hbkey]
        · rw [if_neg hk, if_neg hk']
          have hkk := swap_buttons_get m k1 k2 k
          rw [if_neg hbn, if_neg hk, if_neg hk'] at hkk
          exact hkk

/-- Witness for C5's amended theorem: a one-entry slot-consistent map,
swapped twice across slots 0 and 1, read back at slot 0. -/
theorem C5_swap_involution_witness :
    dictGet (swap_buttons (swap_buttons
        [((0 : Int),
          (⟨0, "", Option.none, Option.none, [0, 0, 0], [255, 255, 255], 14, true⟩ : Button))]
        0 1) 0 1) 0
      = dictGet
        [((0 : Int),
          (⟨0, "", Option.none, Option.none, [0, 0, 0], [255, 255, 255], 14, true⟩ : Button))] 0 :=
  C5_swap_involution
    [((0 : Int),
      (⟨0, "", Option.none, Option.none, [0, 0, 0], [255, 255, 255], 14, true⟩ : Button))]
    0 1
    (by
      intro kv hkv
      rcases List.mem_singleton.mp hkv with rfl
      rfl)
    0

/-! ## `move_button` (web/api.py lines 341–379) -/

inductive MoveError : Type where
  | pageNotFound : MoveError
  | buttonNotFound : MoveError
  | targetFull : MoveError
deriving DecidableEq

/-- Outcome of one `move_button` request: the pages mapping afterwards, the
HTTP result (`ok new_key` or one of the 4xx errors), and whether
`save_config` ran.  Every error is raised before any mutation, so the pages
field equals the input whenever `result` is an error. -/
structure MoveResult : Type where
  pages : List (String × Page)
  result : Except MoveError Int
  saved : Bool

/-- `page.buttons = bs` — the page after its button dict was mutated. -/
def withButtons (p : Page) (bs : List (Int × Button)) : Page :=
  ⟨p.id, p.title, bs, p.bg_color, p.text_color⟩

/-- `button.key = k` — the button after its key field was reassigned. -/
def withKey (b : Button) (k : Int) : Button :=
  ⟨k, b.label, b.icon, b.action, b.bg_color, b.text_color, b.font_size, b.enabled⟩

/-- `move_button`: resolve both pages (404), resolve the source button
(404), scan `range(key_count)` for the first slot free on the target page
(400 when none), then delete the source entry and insert the button at the
found slot with its `key` field rewritten, and save.  When source and target
page ids coincide the two mutations hit the same dict. -/
def move_button (pages : List (String × Page)) (source_page_id : String)
    (source_key : Int) (target_page_id : String) (key_count : Nat) : MoveResult :=
  match dictGet pages source_page_id, dictGet pages target_page_id with
  | some source_page, some target_page =>
    (match dictGet source_page.buttons source_key with
     | Option.none => ⟨pages, .error .buttonNotFound, false⟩
     | some button =>
       match (List.range key_count).find?
           (fun n : Nat => (dictGet target_page.buttons (n : Int)).isNone) with
       | Option.none => ⟨pages, .error .targetFull, false⟩
       | some tk =>
         if source_page_id = target_page_id then
           ⟨dictInsert pages source_page_id
              (withButtons source_page
                (dictInsert (dictErase source_page.buttons source_key) (tk : Int)
                  (withKey button (tk : Int)))),
            .ok (tk : Int), true⟩
         else
           ⟨dictInsert
              (dictInsert pages source_page_id
                (withButtons source_page (dictErase source_page.buttons source_key)))
              target_page_id
              (withButtons target_page
                (dictInsert target_page.buttons (tk : Int) (withKey button (tk : Int)))),
            .ok (tk : Int), true⟩)
  | _, _ => ⟨pages, .error .pageNotFound, false⟩

theorem find?_append {α : Type} (l1 l2 : List α) (p : α → Bool) :
    (l1 ++ l2).find? p = match l1.find? p with
      | some x => some x
      | Option.none => l2.find? p := by
  induction l1 with
  | nil => simp
  | cons a l ih =>
    cases hpa : p a <;> simp [List.find?_cons, hpa, ih]

theorem find_range_eq (kc tk : Nat) (p : Nat → Bool) (h1 : tk < kc)
    (h2 : p tk = true) (h3 : ∀ j, j < tk → p j = false) :
    (List.range kc).find? p = some tk := by
  induction kc with
  | zero => omega
  | succ n ih =>
    rw [List.range_succ, find?_append]
    by_cases hlt : tk < n
    · rw [ih hlt]
    · have htn : tk = n := by omega
      subst htn
      have hnone : (List.range tk).find? p = Option.none := by
        rw [List.find?_eq_none]
        intro j hj
        rw [h3 j (List.mem_range.mp hj)]
        simp
      rw [hnone]
      simp [List.find?_cons, h2]

/-- C6: `move_button` with an empty source slot fails `NotFound` leaving the
pages untouched and persisting nothing; with a fully occupied target page
(every slot in `[0, keyCount)` taken) it fails `TargetFull`, also leaving the
pages untouched and persisting nothing; otherwise it removes the button from
the source slot and re-keys it onto the lowest unoccupied slot of the target
page, and saves. -/
theorem C6_move_button (pages : List (String × Page)) (sid : String) (skey : Int)
    (tid : String) (kc : Nat) (sp tp : Page)
    (hsp : dictGet pages sid = some sp) (htp : dictGet pages tid = some tp) :
    (dictGet sp.buttons skey = Option.none →
      move_button pages sid skey tid kc = ⟨pages, .error .buttonNotFound, false⟩)
    ∧ (∀ b, dictGet sp.buttons skey = some b →
        (∀ n : Nat, n < kc → (dictGet tp.buttons (n : Int)).isSome) →
        move_button pages sid skey tid kc = ⟨pages, .error .targetFull, false⟩)
    ∧ (∀ b (tk : Nat), dictGet sp.buttons skey = some b →
        tk < kc → dictGet tp.buttons (tk : Int) = Option.none →
        (∀ j : Nat, j < tk → (dictGet tp.buttons (j : Int)).isSome) →
        ∃ pages' tp', (move_button pages sid skey tid kc = ⟨pages', .ok (tk : Int), true⟩)
          ∧ dictGet pages' tid = some tp'
          ∧ dictGet tp'.buttons (tk : Int) = some (withKey b (tk : Int))
          ∧ (sid = tid → skey ≠ (tk : Int) → dictGet tp'.buttons skey = Option.none)
          ∧ (sid ≠ tid → ∃ sp', dictGet pages' sid = some sp'
              ∧ dictGet sp'.buttons skey = Option.none)) := by
  refine ⟨?_, ?_, ?_⟩
  · intro hb
    unfold move_button
    simp only [hsp, htp, hb]
  · intro b hb hfull
    unfold move_button
    have hfind : (List.range kc).find?
        (fun n : Nat => (dictGet tp.buttons (n : Int)).isNone) = Option.none := by
      rw [List.find?_eq_none]
      intro n hn
      have hs := hfull n (List.mem_range.mp hn)
      rcases hg : dictGet tp.buttons (n : Int) with _ | w
      · rw [hg] at hs; cases hs
      · simp [hg]
    simp only [hsp, htp, hb, hfind]
  · intro b tk hb htk hfree hbelow
    have hfind : (List.range kc).find?
        (fun n : Nat => (dictGet tp.buttons (n : Int)).isNone) = some tk := by
      apply find_range_eq kc tk _ htk
      · rw [hfree]; rfl
      · intro j hj
        have hs := hbelow j hj
        rcases hg : dictGet tp.buttons (j : Int) with _ | w
        · rw [hg] at hs; cases hs
        · rfl
    by_cases hst : sid = tid
    · subst hst
      have hsptp : sp = tp := by
        rw [hsp] at htp
        exact Option.some.inj htp
      subst hsptp
      refine ⟨dictInsert pages sid
          (withButtons sp
            (dictInsert (dictErase sp.buttons skey) (tk : Int) (withKey b (tk : Int)))),
        withButtons sp
          (dictInsert (dictErase sp.buttons skey) (tk : Int) (withKey b (tk : Int))),
        ?_, ?_, ?_, ?_, ?_⟩
      · unfold move_button
        simp only [hsp, hb, hfind, eq_self_iff_true, if_true]
      · rw [dictGet_insert, if_pos rfl]
      · show dictGet (dictInsert (dictErase sp.buttons skey) (tk : Int)
            (withKey b (tk : Int))) (tk : Int) = _
        rw [dictGet_insert, if_pos rfl]
      · intro _ hne
        show dictGet (dictInsert (dictErase sp.buttons skey) (tk : Int)
            (withKey b (tk : Int))) skey = Option.none
        rw [dictGet_insert, if_neg hne, dictGet_erase, if_pos rfl]
      · intro hne
        exact absurd rfl hne
    · refine ⟨dictInsert
          (dictInsert pages sid (withButtons sp (dictErase sp.buttons skey)))
          tid
          (withButtons tp
            (dictInsert tp.buttons (tk : Int) (withKey b (tk : Int)))),
        withButtons tp
          (dictInsert tp.buttons (tk : Int) (withKey b (tk : Int))),
        ?_, ?_, ?_, ?_, ?_⟩
      · unfold move_button
        simp only [hsp, htp, hb, hfind, if_neg hst]
      · rw [dictGet_insert, if_pos rfl]
      · show dictGet (dictInsert tp.buttons (tk : Int) (withKey b (tk : Int)))
            (tk : Int) = _
        rw [dictGet_insert, if_pos rfl]
      · intro hst'
        exact absurd hst' hst
      · intro _
        refine ⟨withButtons sp (dictErase sp.buttons skey), ?_, ?_⟩
        · rw [dictGet_insert, if_neg hst, dictGet_insert, if_pos rfl]
        · show dictGet (dictErase sp.buttons skey) skey = Option.none
          rw [dictGet_erase, if_pos rfl]

/-- The concrete two-page layout of C6's witness. -/
def c6button : Button :=
  ⟨3, "", Option.none, Option.none, [0, 0, 0], [255, 255, 255], 14, true⟩

def c6pageA : Page := ⟨"a", "A", [((3 : Int), c6button)], Option.none, Option.none⟩

def c6pageB : Page := ⟨"b", "B", [], Option.none, Option.none⟩

def c6pages : List (String × Page) := [("a", c6pageA), ("b", c6pageB)]

/-- Witness for C6: moving the sole button of page `"a"` onto empty page
`"b"` of a two-slot device lands it on slot 0. -/
theorem C6_move_button_witness :
    ∃ pages' tp',
      (move_button c6pages "a" 3 "b" 2 = ⟨pages', .ok (((0 : Nat) : Int)), true⟩)
      ∧ dictGet pages' "b" = some tp'
      ∧ dictGet tp'.buttons (((0 : Nat) : Int)) = some (withKey c6button ((0 : Nat) : Int))
      ∧ ("a" = "b" → (3 : Int) ≠ (((0 : Nat) : Int)) →
          dictGet tp'.buttons 3 = Option.none)
      ∧ ("a" ≠ "b" → ∃ sp', dictGet pages' "a" = some sp'
          ∧ dictGet sp'.buttons 3 = Option.none) :=
  (C6_move_button c6pages "a" 3 "b" 2 c6pageA c6pageB rfl rfl).2.2
    c6button 0 rfl (by decide) rfl (fun j hj => absurd hj (Nat.not_lt_zero j))

end SDPi
